import Mathlib

/- Shallow embedding of the running-dashboard storage and utility layer
   (src/js/data/storage.js, src/js/utils/pace.js, src/js/utils/date.js).

   Modelling conventions:
   * JavaScript numbers are modelled as exact rationals (`ℚ`); every value the
     code manipulates here is a small decimal for which IEEE doubles and
     rationals agree on the comparisons performed.
   * ISO date strings (YYYY-MM-DD) are modelled by their day index (an `ℤ`):
     `parseDate` is a bijection from canonical ISO strings onto day indices,
     string equality of dates corresponds to equality of indices, and the
     millisecond difference of two parsed dates is 86400000 times the index
     difference (all dates live in one fixed frame, per the spec's §4.2
     single-frame contract).
   * `Date.now()` is passed explicitly as a `now : ℕ` argument to the
     operations that read it for id generation.
   * A possibly-absent field (JS `undefined`) is an `Option`.
   * String primitives (`trim`, `split`) are modelled by structurally
     recursive character-list functions with the JS behaviour. -/

namespace RunningDashboard

attribute [local semireducible] Rat.mul Rat.add Rat.inv Rat.ofScientific Rat.sub

/-- Truthiness of a JS id value: `undefined` and the empty string are falsy,
every other string is truthy (ids are strings or absent in this codebase). -/
def jsTruthyId : Option String → Bool
  | none => false
  | some s => !(s == "")

/-- The whitespace characters relevant to `String.prototype.trim` here. -/
def isSpaceChar (c : Char) : Bool :=
  c == ' ' || c == '\t' || c == '\n' || c == '\r'

/-- JS `String.prototype.trim` on a character list. -/
def jsTrim (l : List Char) : List Char :=
  ((l.dropWhile isSpaceChar).reverse.dropWhile isSpaceChar).reverse

/-- JS `String.prototype.split` with a single-character separator: splits the
character list at every occurrence of `sep`; the empty list yields `[[]]`,
matching `"".split(sep) = [""]`. -/
def splitOnChar (sep : Char) : List Char → List (List Char)
  | [] => [[]]
  | c :: cs =>
    let r := splitOnChar sep cs
    if c == sep then [] :: r
    else
      match r with
      | h :: t => (c :: h) :: t
      | [] => [[c]]

/-- Numeric value of one decimal digit character. -/
def digitVal (c : Char) : ℕ := c.toNat - ('0').toNat

/-- A nonempty all-digit character list. -/
def isDigits (l : List Char) : Bool := !l.isEmpty && l.all (fun c => c.isDigit)

/-- Natural number denoted by a digit list (most significant first). -/
def digitsToNat (l : List Char) : ℕ := l.foldl (fun acc c => 10 * acc + digitVal c) 0

/-- Model of the JavaScript `Number(string)` conversion, restricted to the
decimal fragment this codebase exercises: after trimming, the empty string
converts to 0; an optional sign followed by digits with an optional fractional
part converts to the corresponding rational; every other string is NaN,
modelled as `none`.  (Hexadecimal, exponent and `Infinity` literals, which
also convert in JS but never arise here, fall in the `none` case.) -/
def jsNumber (s : String) : Option ℚ :=
  let t := jsTrim s.toList
  if t.isEmpty then some 0
  else
    let (sign, rest) :=
      match t with
      | '-' :: r => ((-1 : ℚ), r)
      | '+' :: r => ((1 : ℚ), r)
      | r => ((1 : ℚ), r)
    match splitOnChar ('.') rest with
    | [ipart] =>
        if isDigits ipart then some (sign * digitsToNat ipart) else none
    | [ipart, fpart] =>
        if ipart.all (fun c => c.isDigit) && fpart.all (fun c => c.isDigit)
            && !(ipart.isEmpty && fpart.isEmpty) then
          some (sign * ((digitsToNat ipart : ℚ)
            + (digitsToNat fpart : ℚ) / ((10 : ℚ) ^ fpart.length)))
        else none
    | _ => none

/-- JS `%` (remainder) on numbers: `a - b * trunc(a / b)`; the code only
applies it to nonnegative operands, where truncation and floor agree, so we
use the floor form. -/
def jsMod (a b : ℚ) : ℚ := a - b * (⌊a / b⌋ : ℚ)

/-- JS `String.prototype.padStart(2, '0')`. -/
def padStart2 (s : String) : String :=
  if s.length < 2 then String.pushn ("") ('0') (2 - s.length) ++ s else s

/-- `calculatePace` from pace.js: seconds per kilometre, with a zero guard for
nonpositive distance. -/
def calculatePace (distanceKm timeSeconds : ℚ) : ℚ :=
  if distanceKm ≤ 0 then 0 else timeSeconds / distanceKm

/-- `formatPace` from pace.js: `M:SS/km` with the seconds zero-padded. -/
def formatPace (secondsPerKm : ℚ) : String :=
  if secondsPerKm ≤ 0 then "-"
  else
    let minutes : ℤ := ⌊secondsPerKm / 60⌋
    let seconds : ℤ := ⌊jsMod secondsPerKm 60⌋
    toString minutes ++ ":" ++ padStart2 (toString seconds) ++ "/km"

/-- `formatDuration` from pace.js: `H:MM:SS` when the hour component is
nonzero, else `M:SS`, minutes and seconds zero-padded to two digits. -/
def formatDuration (totalSeconds : ℚ) : String :=
  if totalSeconds ≤ 0 then "0:00"
  else
    let hours : ℤ := ⌊totalSeconds / 3600⌋
    let minutes : ℤ := ⌊jsMod totalSeconds 3600 / 60⌋
    let seconds : ℤ := ⌊jsMod totalSeconds 60⌋
    if hours > 0 then
      toString hours ++ ":" ++ padStart2 (toString minutes) ++ ":" ++ padStart2 (toString seconds)
    else
      toString minutes ++ ":" ++ padStart2 (toString seconds)

/-- The colon-separated segments of a trimmed time string
(`timeString.trim().split(':')` in pace.js). -/
def rawSegments (s : String) : List (List Char) :=
  splitOnChar (':') (jsTrim s.toList)

/-- The tail of `parseTime` from pace.js, after the segments have been
converted with `Number`: return 0 when any segment is NaN; otherwise combine
3 segments as H:MM:SS, 2 as M:SS, 1 as bare seconds; any other segment count
yields 0. -/
def combineSegments (parts : List (Option ℚ)) : ℚ :=
  if parts.any (fun p => p.isNone) then 0
  else
    match parts with
    | [some h, some m, some s] => h * 3600 + m * 60 + s
    | [some m, some s] => m * 60 + s
    | [some s] => s
    | _ => 0

/-- `parseTime` from pace.js: trim, split on colons, convert each segment
with `Number`, and combine. -/
def parseTime (timeString : String) : ℚ :=
  combineSegments ((rawSegments timeString).map (fun seg => jsNumber (String.mk seg)))

/-- `getCurrentWeek` from date.js: difference of the two parsed dates in
milliseconds, floored to whole days, then floored into 1-indexed 7-day weeks;
0 when the date precedes the plan start.  No upper clamping is performed. -/
def getCurrentWeek (date planStartDate : ℤ) : ℤ :=
  let diffTime : ℚ := ((date - planStartDate) * 86400000 : ℤ)
  let diffDays : ℤ := ⌊diffTime / (1000 * 60 * 60 * 24)⌋
  if diffDays < 0 then 0
  else ⌊(diffDays : ℚ) / 7⌋ + 1

/-- A run entry as saveRun stores it.  The fields no modelled operation reads
(type, notes, heart rate, and the gym/bodyweight flags) are omitted; `week` is
the training-week number computed at creation time (0 when the run's date
precedes the plan start, which is falsy in JS). -/
structure Run where
  id : Option String
  date : ℤ
  week : ℕ
  distance : ℚ
  time : ℚ
  pace : ℚ
deriving DecidableEq

/-- A weight entry; the optional note field is omitted (no modelled operation
reads it). -/
structure WeightEntry where
  id : Option String
  date : ℤ
  weight : ℚ
deriving DecidableEq

/-- The settings record of a fully-populated store. -/
structure Settings where
  trainingPlanStart : ℤ
  goalWeight : ℚ
  startingWeight : ℚ
deriving DecidableEq

/-- The four milestone flags. -/
structure Milestones where
  first10k : Bool
  first15k : Bool
  first20k : Bool
  halfMarathon : Bool
deriving DecidableEq

/-- The top-level store (the shape `initializeStorage` persists). -/
structure Store where
  runs : List Run
  weights : List WeightEntry
  settings : Settings
  milestones : Milestones
deriving DecidableEq

/-- `STARTING_WEIGHT` from storage.js. -/
def STARTING_WEIGHT : ℚ := 74.5

/-- Day index of the ISO date 2026-01-05 (the default `trainingPlanStart`),
counted from 1970-01-01. -/
def TRAINING_PLAN_START : ℤ := 20458

/-- `getDefaultStore` from storage.js. -/
def getDefaultStore : Store :=
  { runs := []
    weights := []
    settings :=
      { trainingPlanStart := TRAINING_PLAN_START
        goalWeight := 65
        startingWeight := STARTING_WEIGHT }
    milestones :=
      { first10k := false
        first15k := false
        first20k := false
        halfMarathon := false } }

/-- `checkMilestones` from storage.js: four sequential checks in priority
order Half Marathon (≥ 21.1), 20K, 15K, 10K; each of the last three runs only
when no milestone has been reported yet in this call (`!newMilestone`) and its
flag is still false; a firing check sets its flag and records the name. -/
def checkMilestones (store : Store) : Store × Option String :=
  let runs := store.runs
  let m0 := store.milestones
  let (m1, n1) :=
    if !m0.halfMarathon && runs.any (fun run => decide ((21.1 : ℚ) ≤ run.distance)) then
      ({ m0 with halfMarathon := true }, some ("Half Marathon"))
    else (m0, (none : Option String))
  let (m2, n2) :=
    if n1.isNone && !m1.first20k && runs.any (fun run => decide ((20 : ℚ) ≤ run.distance)) then
      ({ m1 with first20k := true }, some ("First 20K"))
    else (m1, n1)
  let (m3, n3) :=
    if n2.isNone && !m2.first15k && runs.any (fun run => decide ((15 : ℚ) ≤ run.distance)) then
      ({ m2 with first15k := true }, some ("First 15K"))
    else (m2, n2)
  let (m4, n4) :=
    if n3.isNone && !m3.first10k && runs.any (fun run => decide ((10 : ℚ) ≤ run.distance)) then
      ({ m3 with first10k := true }, some ("First 10K"))
    else (m3, n3)
  ({ store with milestones := m4 }, n4)

/-- `saveRun` from storage.js: a run without (truthy) id is new — it receives
the generated id and is appended; otherwise the run with the same id is
replaced in place (appended if none is found).  Milestones are checked only
for new runs.  The returned triple is (updated store, success flag, newly
achieved milestone); persistence itself (`setStore`) is the storage
collaborator's concern and always succeeds in this model. -/
def saveRun (run : Run) (now : ℕ) (store : Store) : Store × Bool × Option String :=
  let isNewRun := !jsTruthyId run.id
  let store1 :=
    if !jsTruthyId run.id then
      { store with runs := store.runs ++ [{ run with id := some ("run_" ++ toString now) }] }
    else
      match store.runs.findIdx? (fun r => r.id == run.id) with
      | some index => { store with runs := store.runs.set index run }
      | none => { store with runs := store.runs ++ [run] }
  let (store2, newMilestone) :=
    if isNewRun then checkMilestones store1 else (store1, none)
  (store2, true, newMilestone)

/-- `deleteRun` from storage.js. -/
def deleteRun (id : String) (store : Store) : Store :=
  { store with runs := store.runs.filter (fun run => !(run.id == some id)) }

/-- `saveWeight` from storage.js: if another entry (different id) already
holds this date, overwrite it in place keeping its id; else a run without
(truthy) id is appended with a generated id; else replace by id, appending if
the id is unknown. -/
def saveWeight (weight : WeightEntry) (now : ℕ) (store : Store) : Store :=
  match store.weights.findIdx? (fun w => w.date == weight.date && !(w.id == weight.id)) with
  | some existingIndex =>
      let keepId := (store.weights.getD existingIndex weight).id
      { store with weights := store.weights.set existingIndex { weight with id := keepId } }
  | none =>
      if !jsTruthyId weight.id then
        { store with
            weights := store.weights ++ [{ weight with id := some ("weight_" ++ toString now) }] }
      else
        match store.weights.findIdx? (fun w => w.id == weight.id) with
        | some index => { store with weights := store.weights.set index weight }
        | none => { store with weights := store.weights ++ [weight] }

/-- `deleteWeight` from storage.js. -/
def deleteWeight (id : String) (store : Store) : Store :=
  { store with weights := store.weights.filter (fun w => !(w.id == some id)) }

/-- The run list as `getRuns` returns it: sorted by date, newest first (JS
`sort` with comparator `new Date(b.date) - new Date(a.date)` is a stable sort
by that total preorder; insertion sort is its stable model). -/
def getRuns (store : Store) : List Run :=
  store.runs.insertionSort (fun a b => b.date ≤ a.date)

/-- The weight list as `getWeights` returns it: sorted by date, newest
first. -/
def getWeights (store : Store) : List WeightEntry :=
  store.weights.insertionSort (fun a b => b.date ≤ a.date)

/-- `getCurrentWeight` from storage.js: the newest entry's weight, or the
starting-weight constant when no entry exists. -/
def getCurrentWeight (store : Store) : ℚ :=
  match getWeights store with
  | [] => STARTING_WEIGHT
  | w :: _ => w.weight

/-- `getWeightLost` from storage.js. -/
def getWeightLost (store : Store) : ℚ :=
  store.settings.startingWeight - getCurrentWeight store

/-- `getWeightProgress` from storage.js: percentage toward the goal weight,
returning 100 when there is nothing to lose and clamping into [0, 100]
otherwise. -/
def getWeightProgress (store : Store) : ℚ :=
  let settings := store.settings
  let currentWeight := getCurrentWeight store
  let totalToLose := settings.startingWeight - settings.goalWeight
  let lost := settings.startingWeight - currentWeight
  if totalToLose ≤ 0 then 100
  else max 0 (min 100 (lost / totalToLose * 100))

/-- `getRecords` from storage.js, on the (date-sorted) run list `getRuns`
produces: fastest normalized 5K and 10K (lowest `time/distance × target`,
among runs long enough, first encountered wins ties), longest run, and best
(lowest) pace; `none` whenever no qualifying run exists. -/
def getRecords (runs : List Run) : Option Run × Option Run × Option Run × Option Run :=
  match runs with
  | [] => (none, none, none, none)
  | first :: rest =>
    let runs5k := (first :: rest).filter (fun run => decide ((5 : ℚ) ≤ run.distance))
    let fastest5k :=
      match runs5k with
      | [] => none
      | b :: bs => some (bs.foldl (fun best run =>
          if run.time / run.distance * 5 < best.time / best.distance * 5 then run else best) b)
    let runs10k := (first :: rest).filter (fun run => decide ((10 : ℚ) ≤ run.distance))
    let fastest10k :=
      match runs10k with
      | [] => none
      | b :: bs => some (bs.foldl (fun best run =>
          if run.time / run.distance * 10 < best.time / best.distance * 10 then run else best) b)
    let longestRun := some (rest.foldl (fun longest run =>
        if longest.distance < run.distance then run else longest) first)
    let bestPace := some (rest.foldl (fun fastest run =>
        if run.pace < fastest.pace then run else fastest) first)
    (fastest5k, fastest10k, longestRun, bestPace)

/-- The distinct training weeks that have at least one run, JS-truthiness
filtering out week 0 (the `weeksWithRuns` set of `getRunStreak`). -/
def runWeeks (runs : List Run) : List ℕ :=
  ((runs.filter (fun run => run.week != 0)).map (fun run => run.week)).dedup

/-- The backward walk of `getRunStreak`: from week `i` downward, count
consecutive weeks present in `weeks`, stopping at the first absent week or
below week 1. -/
def countBack (weeks : List ℕ) : ℕ → ℕ
  | 0 => 0
  | i + 1 => if weeks.contains (i + 1) then countBack weeks i + 1 else 0

/-- The forward scan of `getRunStreak` over the ascending distinct weeks,
carrying (longest, tempStreak, lastWeek). -/
def longestLoop (sortedWeeks : List ℕ) : ℕ :=
  (sortedWeeks.foldl
    (fun st week =>
      if st.2.2 == 0 || week == st.2.2 + 1 then
        (max st.1 (st.2.1 + 1), st.2.1 + 1, week)
      else (st.1, 1, week))
    ((0, 0, 0) : ℕ × ℕ × ℕ)).1

/-- `getRunStreak` from storage.js, with the present training week supplied
by the caller (at the call site it is `getCurrentWeek(today, planStart)`,
which is never negative): current streak by the backward walk, longest streak
as the larger of the forward scan and the current streak. -/
def getRunStreak (runs : List Run) (currentWeek : ℕ) : ℕ × ℕ :=
  if runs.isEmpty then (0, 0)
  else
    let weeksWithRuns := runWeeks runs
    let sortedWeeks := weeksWithRuns.insertionSort (fun a b => a ≤ b)
    let currentStreak := countBack weeksWithRuns currentWeek
    let longestStreak := longestLoop sortedWeeks
    (currentStreak, max longestStreak currentStreak)

/-- A stored settings record as JSON.parse yields it: each field present or
absent. -/
structure PartialSettings where
  trainingPlanStart : Option ℤ
  goalWeight : Option ℚ
  startingWeight : Option ℚ
deriving DecidableEq

/-- A parsed persisted snapshot: each top-level field present or absent
(JSON.parse never yields `undefined` values, so absent key = `none`). -/
structure StoredData where
  runs : Option (List Run)
  weights : Option (List WeightEntry)
  settings : Option PartialSettings
  milestones : Option Milestones
deriving DecidableEq

/-- The store shape `getStore` actually returns after the spread-merge: a
present stored `settings` record is taken wholesale, so its own fields may
still be absent. -/
structure MergedStore where
  runs : List Run
  weights : List WeightEntry
  settings : PartialSettings
  milestones : Milestones
deriving DecidableEq

/-- The default settings record, with every field present. -/
def defaultPartialSettings : PartialSettings :=
  { trainingPlanStart := some TRAINING_PLAN_START
    goalWeight := some 65
    startingWeight := some STARTING_WEIGHT }

/-- `getStore` from storage.js at the persistence boundary:
`{...getDefaultStore(), ...parsed}` — a single top-level spread, so each of
the four top-level fields is taken from the parsed snapshot when its key is
present and from the default store otherwise; `none` input models an absent
or unparsable stored value, which yields the default store. -/
def getStore (data : Option StoredData) : MergedStore :=
  match data with
  | none =>
    { runs := [], weights := [], settings := defaultPartialSettings,
      milestones := getDefaultStore.milestones }
  | some parsed =>
    { runs := parsed.runs.getD []
      weights := parsed.weights.getD []
      settings := parsed.settings.getD defaultPartialSettings
      milestones := parsed.milestones.getD getDefaultStore.milestones }

/-- `getSettings` from storage.js, at the persistence boundary. -/
def getSettings (data : Option StoredData) : PartialSettings :=
  (getStore data).settings

/- ------------------------------------------------------------------ -/
/- Lemmas                                                              -/
/- ------------------------------------------------------------------ -/

theorem getCurrentWeek_eq (today planStart : ℤ) :
    getCurrentWeek today planStart =
      if today - planStart < 0 then 0 else ⌊((today - planStart : ℤ) : ℚ) / 7⌋ + 1 := by
  have h1 : (((today - planStart) * 86400000 : ℤ) : ℚ) / (1000 * 60 * 60 * 24)
      = ((today - planStart : ℤ) : ℚ) := by
    push_cast
    rw [mul_div_assoc]
    norm_num
  simp only [getCurrentWeek, h1, Int.floor_intCast]

theorem floor_div_seven (d : ℤ) (hd : 0 ≤ d) : ⌊((d : ℚ)) / 7⌋ = (d.toNat / 7 : ℕ) := by
  have h7 : ((7 : ℕ) : ℚ) = (7 : ℚ) := by norm_num
  have := Rat.floor_intCast_div_natCast d 7
  rw [h7] at this
  rw [this]
  omega

/- ------------------------------------------------------------------ -/
/- Claims                                                              -/
/- ------------------------------------------------------------------ -/

/-- C2: for day-indexed dates, `getCurrentWeek today planStart` is
`floor(whole days / 7) + 1` when `today ≥ planStart`, is 0 when
`today < planStart`, exceeds 44 once the date is past the plan's last week
(no top clamping), and satisfies the three reference equations
week(start, start) = 1, week(start − 1 day, start) = 0,
week(start + 7 days, start) = 2. -/
theorem getCurrentWeek_spec (today planStart : ℤ) :
    (planStart ≤ today →
      getCurrentWeek today planStart = ((today - planStart).toNat / 7 : ℕ) + 1) ∧
    (today < planStart → getCurrentWeek today planStart = 0) ∧
    (planStart + 44 * 7 ≤ today → 44 < getCurrentWeek today planStart) ∧
    getCurrentWeek planStart planStart = 1 ∧
    getCurrentWeek (planStart - 1) planStart = 0 ∧
    getCurrentWeek (planStart + 7) planStart = 2 := by
  have key : ∀ a b : ℤ, b ≤ a → getCurrentWeek a b = ((a - b).toNat / 7 : ℕ) + 1 := by
    intro a b h
    rw [getCurrentWeek_eq, if_neg (by omega), floor_div_seven _ (by omega)]
  have key0 : ∀ a b : ℤ, a < b → getCurrentWeek a b = 0 := by
    intro a b h
    rw [getCurrentWeek_eq, if_pos (by omega)]
  refine ⟨key today planStart, key0 today planStart, ?_, ?_, ?_, ?_⟩
  · intro h
    rw [key today planStart (by omega)]
    have : 44 ≤ (today - planStart).toNat / 7 := by omega
    omega
  · rw [key planStart planStart le_rfl]; norm_num
  · rw [key0 _ _ (by omega)]
  · rw [key _ _ (by omega)]
    norm_num

/-- C2 witness: the general theorem applied at the default plan start
2026-01-05 (day 20458) and one week later. -/
theorem getCurrentWeek_spec_witness :
    getCurrentWeek 20465 20458 = ((20465 - 20458 : ℤ).toNat / 7 : ℕ) + 1 :=
  (getCurrentWeek_spec 20465 20458).1 (by norm_num)

/-- C8: the four reference equations of the pace/time helpers hold:
`formatDuration (parseTime "1:30:45") = "1:30:45"`,
`parseTime "30:00" = 1800`, `calculatePace 5 1500 = 300`, and
`formatPace 300 = "5:00/km"`. -/
theorem pace_time_reference_equations :
    formatDuration (parseTime ("1:30:45")) = "1:30:45" ∧
    parseTime ("30:00") = 1800 ∧
    calculatePace 5 1500 = 300 ∧
    formatPace 300 = "5:00/km" := by
  refine ⟨by decide, by decide, by decide, by decide⟩

/-- C7 counterexample: the rejection value of `parseTime` is 0, which is
exactly the successful parse of the valid input "0" — a malformed input with
four colon-separated segments is therefore not distinguishable from a
successfully parsed zero duration by the return value. -/
theorem parseTime_rejection_indistinguishable :
    parseTime ("1:2:3:4") = parseTime ("0") ∧ parseTime ("0") = 0 := by
  refine ⟨by decide, by decide⟩

/-- C7 (amended): any input string with a NaN segment or with more than three
colon-delimited segments makes `parseTime` return 0 (never a partial sum),
but 0 is a sentinel shared with genuine zero durations, not a distinguishable
invalid result. -/
theorem parseTime_invalid_yields_zero (s : String)
    (h : ((rawSegments s).map (fun seg => jsNumber (String.mk seg))).any
            (fun p => p.isNone) = true
       ∨ 3 < (rawSegments s).length) :
    parseTime s = 0 := by
  have aux : ∀ parts : List (Option ℚ),
      parts.any (fun p => p.isNone) = true ∨ 3 < parts.length →
      combineSegments parts = 0 := by
    intro parts hp
    rcases hany : parts.any (fun p => p.isNone) with _ | _
    · have h3 : 3 < parts.length := by
        rcases hp with hp | hp
        · rw [hany] at hp; cases hp
        · exact hp
      rcases parts with _ | ⟨a, _ | ⟨b, _ | ⟨c, _ | ⟨d, t⟩⟩⟩⟩ <;>
        simp only [List.length] at h3 <;> try omega
      rcases a with _ | av
      · simp [List.any_cons] at hany
      rcases b with _ | bv
      · simp [List.any_cons] at hany
      rcases c with _ | cv
      · simp [List.any_cons] at hany
      rcases d with _ | dv
      · simp [List.any_cons] at hany
      unfold combineSegments
      rw [if_neg (by simp [hany])]
    · unfold combineSegments
      rw [if_pos hany]
  unfold parseTime
  apply aux
  rcases h with h | h
  · exact Or.inl h
  · exact Or.inr (by simpa using h)

/-- C7 witness: the amended theorem applied to the four-segment input. -/
theorem parseTime_invalid_yields_zero_witness :
    parseTime ("1:2:3:4") = 0 :=
  parseTime_invalid_yields_zero ("1:2:3:4") (Or.inr (by decide))

/-- C10: `getWeightProgress` stays in [0, 100]; it is 100 whenever
`startingWeight − goalWeight ≤ 0` (so the division is never by a nonpositive
total) and the clamped ratio otherwise. -/
theorem getWeightProgress_bounds (store : Store) :
    0 ≤ getWeightProgress store ∧ getWeightProgress store ≤ 100 ∧
    (store.settings.startingWeight - store.settings.goalWeight ≤ 0 →
      getWeightProgress store = 100) ∧
    (0 < store.settings.startingWeight - store.settings.goalWeight →
      getWeightProgress store =
        max 0 (min 100 ((store.settings.startingWeight - getCurrentWeight store) /
          (store.settings.startingWeight - store.settings.goalWeight) * 100))) := by
  simp only [getWeightProgress]
  split_ifs with h
  · exact ⟨by norm_num, by norm_num, fun _ => rfl, fun hlt => absurd h (not_le.mpr hlt)⟩
  · push_neg at h
    refine ⟨le_max_left 0 _, ?_, fun hle => absurd hle (not_le.mpr h), fun _ => rfl⟩
    exact max_le (by norm_num) (min_le_left 100 _)

/-- C10 witness: the bounds at the default store. -/
theorem getWeightProgress_bounds_witness :
    getWeightProgress getDefaultStore = 100 ∨
      (0 ≤ getWeightProgress getDefaultStore ∧ getWeightProgress getDefaultStore ≤ 100) :=
  Or.inr ⟨(getWeightProgress_bounds getDefaultStore).1,
    (getWeightProgress_bounds getDefaultStore).2.1⟩


/-- A store mutation considered by the milestone-monotonicity claim: a
`saveRun` (with its clock value) or a `deleteRun`. -/
inductive StoreOp where
  | save (run : Run) (now : ℕ)
  | del (id : String)

/-- Apply one operation to the store. -/
def applyOp (op : StoreOp) (store : Store) : Store :=
  match op with
  | .save run now => (saveRun run now store).1
  | .del id => deleteRun id store

/-- Apply a sequence of operations, oldest first. -/
def applyOps (ops : List StoreOp) (store : Store) : Store :=
  ops.foldl (fun s op => applyOp op s) store

/-- Pointwise order on the four milestone flags: `a ≤ b` when every flag set
in `a` is set in `b`. -/
def MilestonesLe (a b : Milestones) : Prop :=
  a.first10k ≤ b.first10k ∧ a.first15k ≤ b.first15k ∧
    a.first20k ≤ b.first20k ∧ a.halfMarathon ≤ b.halfMarathon

theorem MilestonesLe.rfl {a : Milestones} : MilestonesLe a a :=
  ⟨le_refl _, le_refl _, le_refl _, le_refl _⟩

theorem MilestonesLe.trans {a b c : Milestones}
    (h1 : MilestonesLe a b) (h2 : MilestonesLe b c) : MilestonesLe a c :=
  ⟨le_trans h1.1 h2.1, le_trans h1.2.1 h2.2.1,
    le_trans h1.2.2.1 h2.2.2.1, le_trans h1.2.2.2 h2.2.2.2⟩

theorem checkMilestones_le (store : Store) :
    MilestonesLe store.milestones (checkMilestones store).1.milestones := by
  simp only [checkMilestones]
  split_ifs <;>
    exact ⟨by simp, by simp, by simp, by simp⟩

theorem saveRun_milestones_le (run : Run) (now : ℕ) (store : Store) :
    MilestonesLe store.milestones (saveRun run now store).1.milestones := by
  simp only [saveRun]
  split_ifs with h
  · exact checkMilestones_le
      { store with runs := store.runs ++ [{ run with id := some ("run_" ++ toString now) }] }
  · cases List.findIdx? (fun r => r.id == run.id) store.runs <;> exact MilestonesLe.rfl

theorem applyOp_milestones_le (op : StoreOp) (store : Store) :
    MilestonesLe store.milestones (applyOp op store).milestones := by
  cases op with
  | save run now => exact saveRun_milestones_le run now store
  | del id => exact MilestonesLe.rfl

/-- C3: milestone flags are monotonic across any sequence of saveRun and
deleteRun operations. -/
theorem milestoneFlags_monotonic (ops : List StoreOp) (store : Store) :
    MilestonesLe store.milestones (applyOps ops store).milestones := by
  induction ops generalizing store with
  | nil => exact MilestonesLe.rfl
  | cons op rest ih =>
    exact MilestonesLe.trans (applyOp_milestones_le op store) (ih (applyOp op store))


/-- A 5 km run used by the concrete milestone scenarios. -/
def runFive : Run :=
  { id := some ("run_a"), date := 20460, week := 1, distance := 5, time := 1500, pace := 300 }

/-- A 12 km run used by the concrete milestone scenarios. -/
def runTwelve : Run :=
  { id := some ("run_b"), date := 20461, week := 1, distance := 12, time := 3600, pace := 300 }

/-- A new (id-less) half-marathon run. -/
def runHalf : Run :=
  { id := none, date := 20462, week := 1, distance := 21.1, time := 6330, pace := 300 }

/-- A store holding the 5 km and 12 km runs with all milestone flags still
false. -/
def storeFiveTwelve : Store := { getDefaultStore with runs := [runFive, runTwelve] }

/-- C1 counterexample: saving the new 21.1 km run into the store that already
holds 5 km and 12 km runs (all flags false) reports Half Marathon, but leaves
first10k, first15k and first20k false — the crossed lower thresholds are not
set in the same call, refuting the claim that every crossed flag becomes
true. -/
theorem saveRun_leaves_lower_flags_false :
    (saveRun runHalf 7 storeFiveTwelve).2.2 = some ("Half Marathon") ∧
    (saveRun runHalf 7 storeFiveTwelve).1.milestones.halfMarathon = true ∧
    (saveRun runHalf 7 storeFiveTwelve).1.milestones.first10k = false ∧
    (saveRun runHalf 7 storeFiveTwelve).1.milestones.first15k = false ∧
    (saveRun runHalf 7 storeFiveTwelve).1.milestones.first20k = false := by
  refine ⟨by decide, by decide, by decide, by decide, by decide⟩

/-- C1 (amended): saving a new run into a store whose flags are all false
reports exactly one milestone, chosen by priority Half Marathon (≥ 21.1),
then 20 km, then 15 km, then 10 km over the updated run list; only the flag
of the reported milestone is set — crossed lower-priority thresholds stay
false in this call. -/
theorem saveRun_single_milestone (run : Run) (now : ℕ) (store : Store)
    (hid : jsTruthyId run.id = false)
    (hm : store.milestones = ⟨false, false, false, false⟩) :
    (saveRun run now store).2.2 =
      (if (store.runs ++ [{ run with id := some ("run_" ++ toString now) }]).any
            (fun r => decide ((21.1 : ℚ) ≤ r.distance)) then some ("Half Marathon")
       else if (store.runs ++ [{ run with id := some ("run_" ++ toString now) }]).any
            (fun r => decide ((20 : ℚ) ≤ r.distance)) then some ("First 20K")
       else if (store.runs ++ [{ run with id := some ("run_" ++ toString now) }]).any
            (fun r => decide ((15 : ℚ) ≤ r.distance)) then some ("First 15K")
       else if (store.runs ++ [{ run with id := some ("run_" ++ toString now) }]).any
            (fun r => decide ((10 : ℚ) ≤ r.distance)) then some ("First 10K")
       else none) ∧
    (saveRun run now store).1.milestones.halfMarathon =
      (store.runs ++ [{ run with id := some ("run_" ++ toString now) }]).any
        (fun r => decide ((21.1 : ℚ) ≤ r.distance)) ∧
    (saveRun run now store).1.milestones.first20k =
      (!(store.runs ++ [{ run with id := some ("run_" ++ toString now) }]).any
          (fun r => decide ((21.1 : ℚ) ≤ r.distance)) &&
        (store.runs ++ [{ run with id := some ("run_" ++ toString now) }]).any
          (fun r => decide ((20 : ℚ) ≤ r.distance))) ∧
    (saveRun run now store).1.milestones.first15k =
      (!(store.runs ++ [{ run with id := some ("run_" ++ toString now) }]).any
          (fun r => decide ((21.1 : ℚ) ≤ r.distance)) &&
        !(store.runs ++ [{ run with id := some ("run_" ++ toString now) }]).any
          (fun r => decide ((20 : ℚ) ≤ r.distance)) &&
        (store.runs ++ [{ run with id := some ("run_" ++ toString now) }]).any
          (fun r => decide ((15 : ℚ) ≤ r.distance))) ∧
    (saveRun run now store).1.milestones.first10k =
      (!(store.runs ++ [{ run with id := some ("run_" ++ toString now) }]).any
          (fun r => decide ((21.1 : ℚ) ≤ r.distance)) &&
        !(store.runs ++ [{ run with id := some ("run_" ++ toString now) }]).any
          (fun r => decide ((20 : ℚ) ≤ r.distance)) &&
        !(store.runs ++ [{ run with id := some ("run_" ++ toString now) }]).any
          (fun r => decide ((15 : ℚ) ≤ r.distance)) &&
        (store.runs ++ [{ run with id := some ("run_" ++ toString now) }]).any
          (fun r => decide ((10 : ℚ) ≤ r.distance))) := by
  simp only [saveRun, hid, Bool.not_false, if_pos]
  simp only [checkMilestones, hm]
  rcases h21 : (store.runs ++ [{ run with id := some ("run_" ++ toString now) }]).any
      (fun r => decide ((21.1 : ℚ) ≤ r.distance)) with _ | _ <;>
    rcases h20 : (store.runs ++ [{ run with id := some ("run_" ++ toString now) }]).any
        (fun r => decide ((20 : ℚ) ≤ r.distance)) with _ | _ <;>
      rcases h15 : (store.runs ++ [{ run with id := some ("run_" ++ toString now) }]).any
          (fun r => decide ((15 : ℚ) ≤ r.distance)) with _ | _ <;>
        rcases h10 : (store.runs ++ [{ run with id := some ("run_" ++ toString now) }]).any
            (fun r => decide ((10 : ℚ) ≤ r.distance)) with _ | _ <;>
 simp [h21, h20, h15, h10]


/-- C1 witness: the amended theorem applied to the concrete scenario. -/
theorem saveRun_single_milestone_witness :
    (saveRun runHalf 7 storeFiveTwelve).2.2 = some ("Half Marathon") := by
  have h := saveRun_single_milestone runHalf 7 storeFiveTwelve (by decide) (by decide)
  rw [h.1]
  decide

/-- A stored snapshot whose settings record is present but lacks
`goalWeight`. -/
def snapshotPartialSettings : StoredData :=
  { runs := none
    weights := none
    settings := some
      { trainingPlanStart := some TRAINING_PLAN_START
        goalWeight := none
        startingWeight := some STARTING_WEIGHT }
    milestones := none }

/-- C6 counterexample: reading settings from a stored snapshot whose settings
record is present but missing `goalWeight` does not backfill the field from
the default store (which holds 65): the merge is a single top-level spread,
so the partial settings record is taken wholesale. -/
theorem getSettings_missing_field_not_backfilled :
    (getSettings (some snapshotPartialSettings)).goalWeight = none ∧
    defaultPartialSettings.goalWeight = some 65 := by
  refine ⟨by decide, by decide⟩

/-- C6 (amended): backfilling happens only at the top level of the snapshot:
each of the four top-level fields is taken from the stored record when its
key is present and from the default store when it is absent (an absent or
unparsable snapshot yields the whole default store); a present settings
record is taken wholesale, its own missing fields left absent. -/
theorem getStore_top_level_merge (d : StoredData) :
    (getStore (some d)).runs = d.runs.getD getDefaultStore.runs ∧
    (getStore (some d)).weights = d.weights.getD getDefaultStore.weights ∧
    (getStore (some d)).settings = d.settings.getD defaultPartialSettings ∧
    (getStore (some d)).milestones = d.milestones.getD getDefaultStore.milestones ∧
    getStore none =
      { runs := getDefaultStore.runs
        weights := getDefaultStore.weights
        settings := defaultPartialSettings
        milestones := getDefaultStore.milestones } := by
  exact ⟨rfl, rfl, rfl, rfl, rfl⟩


/-- `r` is the first-encountered minimum of `l` under `key`: it splits `l`
into a strictly-greater prefix and a no-smaller suffix. -/
def IsFirstMin (key : Run → ℚ) (l : List Run) (r : Run) : Prop :=
  ∃ pre post, l = pre ++ r :: post ∧
    (∀ x ∈ pre, key r < key x) ∧ (∀ x ∈ post, key r ≤ key x)

/-- `r` is the first-encountered maximum of `l` under `key`. -/
def IsFirstMax (key : Run → ℚ) (l : List Run) (r : Run) : Prop :=
  ∃ pre post, l = pre ++ r :: post ∧
    (∀ x ∈ pre, key x < key r) ∧ (∀ x ∈ post, key x ≤ key r)

theorem foldl_min_isFirstMin (key : Run → ℚ) (t : List Run) (h : Run) :
    IsFirstMin key (h :: t)
      (t.foldl (fun best run => if key run < key best then run else best) h) := by
  induction t generalizing h with
  | nil => exact ⟨[], [], rfl, by simp, by simp⟩
  | cons r rs ih =>
    have step : List.foldl (fun best run => if key run < key best then run else best) h (r :: rs)
        = List.foldl (fun best run => if key run < key best then run else best)
            (if key r < key h then r else h) rs := rfl
    rw [step]
    obtain ⟨pre, post, heq, hpre, hpost⟩ := ih (if key r < key h then r else h)
    set m := List.foldl (fun best run => if key run < key best then run else best)
      (if key r < key h then r else h) rs with hm
    by_cases hrh : key r < key h
    · rw [if_pos hrh] at heq
      rcases pre with _ | ⟨p0, pre₂⟩
      · simp only [List.nil_append, List.cons.injEq] at heq
        obtain ⟨hm0, hrs⟩ := heq
        exact ⟨[h], post, by rw [hm0, hrs]; rfl, by simp [← hm0, hrh], hpost⟩
      · simp only [List.cons_append, List.cons.injEq] at heq
        obtain ⟨hp0, hrs⟩ := heq
        have hmr : key m < key r := hp0 ▸ hpre p0 (List.mem_cons_self p0 pre₂)
        refine ⟨h :: r :: pre₂, post, by simp [hrs], ?_, hpost⟩
        intro x hx
        rcases List.mem_cons.mp hx with hx | hx
        · exact hx ▸ lt_trans hmr hrh
        rcases List.mem_cons.mp hx with hx | hx
        · exact hx ▸ hmr
        · exact hpre x (by simp [hp0, hx])
    · rw [if_neg hrh] at heq
      have hhr : key h ≤ key r := le_of_not_lt hrh
      rcases pre with _ | ⟨p0, pre₂⟩
      · simp only [List.nil_append, List.cons.injEq] at heq
        obtain ⟨hm0, hrs⟩ := heq
        refine ⟨[], r :: post, by rw [hm0, hrs]; rfl, by simp, ?_⟩
        intro x hx
        rcases List.mem_cons.mp hx with hx | hx
        · exact hx ▸ (hm0 ▸ hhr)
        · exact hpost x hx
      · simp only [List.cons_append, List.cons.injEq] at heq
        obtain ⟨hp0, hrs⟩ := heq
        have hmh : key m < key h := hp0 ▸ hpre p0 (List.mem_cons_self p0 pre₂)
        refine ⟨h :: r :: pre₂, post, by simp [hrs], ?_, hpost⟩
        intro x hx
        rcases List.mem_cons.mp hx with hx | hx
        · exact hx ▸ hmh
        rcases List.mem_cons.mp hx with hx | hx
        · exact hx ▸ lt_of_lt_of_le hmh hhr
        · exact hpre x (by simp [hp0, hx])


theorem foldl_max_isFirstMax (key : Run → ℚ) (t : List Run) (h : Run) :
    IsFirstMax key (h :: t)
      (t.foldl (fun best run => if key best < key run then run else best) h) := by
  induction t generalizing h with
  | nil => exact ⟨[], [], rfl, by simp, by simp⟩
  | cons r rs ih =>
    have step : List.foldl (fun best run => if key best < key run then run else best) h (r :: rs)
        = List.foldl (fun best run => if key best < key run then run else best)
            (if key h < key r then r else h) rs := rfl
    rw [step]
    obtain ⟨pre, post, heq, hpre, hpost⟩ := ih (if key h < key r then r else h)
    set m := List.foldl (fun best run => if key best < key run then run else best)
      (if key h < key r then r else h) rs with hm
    by_cases hrh : key h < key r
    · rw [if_pos hrh] at heq
      rcases pre with _ | ⟨p0, pre₂⟩
      · simp only [List.nil_append, List.cons.injEq] at heq
        obtain ⟨hm0, hrs⟩ := heq
        exact ⟨[h], post, by rw [hm0, hrs]; rfl, by simp [← hm0, hrh], hpost⟩
      · simp only [List.cons_append, List.cons.injEq] at heq
        obtain ⟨hp0, hrs⟩ := heq
        have hmr : key r < key m := hp0 ▸ hpre p0 (List.mem_cons_self p0 pre₂)
        refine ⟨h :: r :: pre₂, post, by simp [hrs], ?_, hpost⟩
        intro x hx
        rcases List.mem_cons.mp hx with hx | hx
        · exact hx ▸ lt_trans hrh hmr
        rcases List.mem_cons.mp hx with hx | hx
        · exact hx ▸ hmr
        · exact hpre x (by simp [hp0, hx])
    · rw [if_neg hrh] at heq
      have hhr : key r ≤ key h := le_of_not_lt hrh
      rcases pre with _ | ⟨p0, pre₂⟩
      · simp only [List.nil_append, List.cons.injEq] at heq
        obtain ⟨hm0, hrs⟩ := heq
        refine ⟨[], r :: post, by rw [hm0, hrs]; rfl, by simp, ?_⟩
        intro x hx
        rcases List.mem_cons.mp hx with hx | hx
        · exact hx ▸ (hm0 ▸ hhr)
        · exact hpost x hx
      · simp only [List.cons_append, List.cons.injEq] at heq
        obtain ⟨hp0, hrs⟩ := heq
        have hmh : key h < key m := hp0 ▸ hpre p0 (List.mem_cons_self p0 pre₂)
        refine ⟨h :: r :: pre₂, post, by simp [hrs], ?_, hpost⟩
        intro x hx
        rcases List.mem_cons.mp hx with hx | hx
        · exact hx ▸ hmh
        rcases List.mem_cons.mp hx with hx | hx
        · exact hx ▸ lt_of_le_of_lt hhr hmh
        · exact hpre x (by simp [hp0, hx])


/-- One personal-record slot satisfies its contract: absent exactly when no
run qualifies, otherwise the first-encountered minimum of the qualifying
list. -/
def OptFirstMin (key : Run → ℚ) (l : List Run) : Option Run → Prop
  | none => l = []
  | some r => IsFirstMin key l r

/-- One personal-record slot satisfies its maximum contract. -/
def OptFirstMax (key : Run → ℚ) (l : List Run) : Option Run → Prop
  | none => l = []
  | some r => IsFirstMax key l r

/-- C5: each of the four personal records is an explicit absent value when no
run qualifies (in particular on the empty run set) and otherwise the
first-encountered run minimising normalized-5K time among runs ≥ 5 km,
minimising normalized-10K time among runs ≥ 10 km, maximising distance, and
minimising pace, respectively — ties always broken by first-encountered in
input order. -/
theorem getRecords_spec (runs : List Run) :
    OptFirstMin (fun r => r.time / r.distance * 5)
      (runs.filter (fun r => decide ((5 : ℚ) ≤ r.distance))) (getRecords runs).1 ∧
    OptFirstMin (fun r => r.time / r.distance * 10)
      (runs.filter (fun r => decide ((10 : ℚ) ≤ r.distance))) (getRecords runs).2.1 ∧
    OptFirstMax (fun r => r.distance) runs (getRecords runs).2.2.1 ∧
    OptFirstMin (fun r => r.pace) runs (getRecords runs).2.2.2 ∧
    getRecords [] = (none, none, none, none) := by
  cases runs with
  | nil => exact ⟨rfl, rfl, rfl, rfl, rfl⟩
  | cons first rest =>
    refine ⟨?_, ?_, ?_, ?_, rfl⟩
    · cases h5 : (first :: rest).filter (fun r => decide ((5 : ℚ) ≤ r.distance)) with
      | nil => simp only [getRecords, h5, OptFirstMin]
      | cons b bs =>
        simp only [getRecords, h5, OptFirstMin]
        exact foldl_min_isFirstMin (fun r => r.time / r.distance * 5) bs b
    · cases h10 : (first :: rest).filter (fun r => decide ((10 : ℚ) ≤ r.distance)) with
      | nil => simp only [getRecords, h10, OptFirstMin]
      | cons b bs =>
        simp only [getRecords, h10, OptFirstMin]
        exact foldl_min_isFirstMin (fun r => r.time / r.distance * 10) bs b
    · simp only [getRecords, OptFirstMax]
      exact foldl_max_isFirstMax (fun r => r.distance) rest first
    · simp only [getRecords, OptFirstMin]
      exact foldl_min_isFirstMin (fun r => r.pace) rest first


theorem list_set_self {α : Type _} (l : List α) (i : ℕ) (hi : i < l.length) :
    l.set i (l.get ⟨i, hi⟩) = l := by
  apply List.ext_getElem
  · simp
  · intro j h1 h2
    rw [List.getElem_set]
    split_ifs with h
    · subst h; rfl
    · rfl

theorem nodup_set_of_ne {α : Type _} (l : List α) (i : ℕ) (x : α)
    (hn : l.Nodup) (hx : ∀ j (hj : j < l.length), j ≠ i → l.get ⟨j, hj⟩ ≠ x) :
    (l.set i x).Nodup := by
  rcases Nat.lt_or_ge i l.length with hi | hi
  · rw [List.nodup_iff_injective_get] at hn ⊢
    intro ⟨a, ha⟩ ⟨b, hb⟩ hab
    simp only [List.length_set] at ha hb
    simp only [List.get_eq_getElem, List.getElem_set] at hab
    by_cases hai : i = a <;> by_cases hbi : i = b
    · simp [← hai, ← hbi]
    · rw [if_pos hai, if_neg hbi] at hab
      exact absurd hab.symm (hx b hb (fun h => hbi h.symm))
    · rw [if_neg hai, if_pos hbi] at hab
      exact absurd hab (hx a ha (fun h => hai h.symm))
    · rw [if_neg hai, if_neg hbi] at hab
      have := @hn ⟨a, ha⟩ ⟨b, hb⟩ (by simpa using hab)
      simpa using this
  · rw [List.set_eq_of_length_le (by omega)]
    exact hn

theorem nodup_get_inj {α : Type _} {l : List α} (hn : l.Nodup)
    {a b : ℕ} (ha : a < l.length) (hb : b < l.length)
    (h : l.get ⟨a, ha⟩ = l.get ⟨b, hb⟩) : a = b := by
  rw [List.nodup_iff_injective_get] at hn
  have := @hn ⟨a, ha⟩ ⟨b, hb⟩ h
  simpa using this

theorem saveWeight_distinctDates (weight : WeightEntry) (now : ℕ) (store : Store)
    (hids : ∀ w ∈ store.weights, jsTruthyId w.id = true)
    (hid : (store.weights.map (fun w => w.id)).Nodup)
    (hdate : (store.weights.map (fun w => w.date)).Nodup) :
    ((saveWeight weight now store).weights.map (fun w => w.date)).Nodup := by
  unfold saveWeight
  rcases h1 : store.weights.findIdx?
      (fun w => w.date == weight.date && !(w.id == weight.id)) with _ | i
  · rw [h1]
    dsimp only
    rw [List.findIdx?_eq_none_iff] at h1
    by_cases htr : jsTruthyId weight.id = true
    · rw [if_neg (by simp [htr])]
      rcases h2 : store.weights.findIdx? (fun w => w.id == weight.id) with _ | j
      · rw [h2]
        dsimp only
        rw [List.findIdx?_eq_none_iff] at h2
        simp only [List.map_append, List.map_cons, List.map_nil]
        rw [List.nodup_append]
        refine ⟨hdate, List.nodup_singleton _, ?_⟩
        intro d hd
        simp only [List.mem_map] at hd
        obtain ⟨w, hw, hwd⟩ := hd
        have hp := h1 w hw
        have hq := h2 w hw
        simp only [Bool.and_eq_false_iff, beq_iff_eq, Bool.not_eq_false',
          beq_eq_false_iff_ne, ne_eq] at hp hq
        simp only [List.mem_singleton]
        rcases hp with hp | hp
        · rw [← hwd]; simpa using hp
        · exact absurd hp hq
      · rw [h2]
        dsimp only
        rw [List.findIdx?_eq_some_iff_getElem] at h2
        obtain ⟨hj, hpj, hbefore⟩ := h2
        simp only [beq_iff_eq] at hpj
        rw [List.map_set]
        apply nodup_set_of_ne _ _ _ hdate
        intro k hk hkj
        simp only [List.length_map] at hk
        simp only [List.get_eq_getElem, List.getElem_map]
        intro hkd
        have hmem : store.weights.get ⟨k, hk⟩ ∈ store.weights := List.get_mem _ _ _
        have hp := h1 _ hmem
        simp only [Bool.and_eq_false_iff, beq_iff_eq, Bool.not_eq_false',
          beq_eq_false_iff_ne, ne_eq] at hp
        rcases hp with hp | hp
        · exact hp (by simpa using hkd)
        · have hsame : (store.weights.get ⟨k, hk⟩).id = (store.weights.get ⟨j, hj⟩).id := by
            simp only [List.get_eq_getElem]
            rw [hpj]
            simpa using hp
          have : k = j := by
            apply nodup_get_inj hid (by simpa using hk) (by simpa using hj)
            simp only [List.get_eq_getElem, List.getElem_map]
            simpa using hsame
          exact hkj this
    · rw [if_pos (by simpa using htr)]
      simp only [List.map_append, List.map_cons, List.map_nil]
      rw [List.nodup_append]
      refine ⟨hdate, List.nodup_singleton _, ?_⟩
      intro d hd
      simp only [List.mem_map] at hd
      obtain ⟨w, hw, hwd⟩ := hd
      have hp := h1 w hw
      simp only [Bool.and_eq_false_iff, beq_iff_eq, Bool.not_eq_false',
        beq_eq_false_iff_ne, ne_eq] at hp
      simp only [List.mem_singleton]
      rcases hp with hp | hp
      · rw [← hwd]; simpa using hp
      · have := hids w hw
        rw [hp] at this
        rw [this] at htr
        exact absurd rfl htr
  · rw [h1]
    dsimp only
    rw [List.findIdx?_eq_some_iff_getElem] at h1
    obtain ⟨hi, hpi, hbefore⟩ := h1
    simp only [Bool.and_eq_true, beq_iff_eq, Bool.not_eq_true', beq_eq_false_iff_ne, ne_eq] at hpi
    rw [List.map_set]
    have hgetd : store.weights.getD i weight = store.weights.get ⟨i, hi⟩ := by
      rw [List.getD_eq_getElem _ _ hi]
      rfl
    have hdd : ({ weight with id := (store.weights.getD i weight).id } : WeightEntry).date
        = (List.map (fun w => w.date) store.weights).get ⟨i, by simpa using hi⟩ := by
      simp only [List.get_eq_getElem, List.getElem_map]
      rw [hpi.1.symm]
    rw [show ({ weight with id := (store.weights.getD i weight).id } : WeightEntry).date
        = (List.map (fun w => w.date) store.weights).get ⟨i, by simpa using hi⟩ from hdd]
    rw [list_set_self]
    exact hdate


theorem saveWeight_overwrites_in_place (weight : WeightEntry) (now : ℕ) (store : Store)
    (hids : ∀ w ∈ store.weights, jsTruthyId w.id = true)
    (hid : (store.weights.map (fun w => w.id)).Nodup)
    (hdate : (store.weights.map (fun w => w.date)).Nodup)
    (i : ℕ) (hi : i < store.weights.length)
    (hd : (store.weights.get ⟨i, hi⟩).date = weight.date) :
    (saveWeight weight now store).weights =
      store.weights.set i { weight with id := (store.weights.get ⟨i, hi⟩).id } := by
  unfold saveWeight
  by_cases hsame : (store.weights.get ⟨i, hi⟩).id = weight.id
  · have h1 : store.weights.findIdx?
        (fun w => w.date == weight.date && !(w.id == weight.id)) = none := by
      rw [List.findIdx?_eq_none_iff]
      intro x hx
      obtain ⟨k, hk, hxk⟩ := List.mem_iff_getElem.mp hx
      by_cases hxd : x.date = weight.date
      · have hki : k = i := by
          apply nodup_get_inj hdate (by simpa using hk) (by simpa using hi)
          simp only [List.get_eq_getElem, List.getElem_map]
          rw [hxk, hxd]
          exact hd.symm
        subst hki
        have hxid : x.id = weight.id := by
          rw [← hxk]
          simpa using hsame
        simp [hxid]
      · simp [hxd]
    have htruthy : jsTruthyId weight.id = true := by
      rw [← hsame]
      exact hids _ (List.get_mem _ _ _)
    have h2 : store.weights.findIdx? (fun w => w.id == weight.id) = some i := by
      rw [List.findIdx?_eq_some_iff_getElem]
      refine ⟨hi, by simp only [List.get_eq_getElem] at hsame; simp [hsame], ?_⟩
      intro j hji
      simp only [Bool.not_eq_true, beq_eq_false_iff_ne, ne_eq]
      intro hjid
      have hji2 : j = i := by
        apply nodup_get_inj hid (by simpa using (Nat.lt_trans hji hi)) (by simpa using hi)
        simp only [List.get_eq_getElem, List.getElem_map]
        rw [hjid]
        simp only [List.get_eq_getElem] at hsame
        exact hsame.symm
      omega
    rw [h1]
    dsimp only
    rw [if_neg (by simp [htruthy]), h2]
    dsimp only
    have heq : ({ weight with id := (store.weights.get ⟨i, hi⟩).id } : WeightEntry) = weight := by
      rw [hsame]
    rw [heq]
  · have h1 : store.weights.findIdx?
        (fun w => w.date == weight.date && !(w.id == weight.id)) = some i := by
      rw [List.findIdx?_eq_some_iff_getElem]
      refine ⟨hi, ?_, ?_⟩
      · simp only [List.get_eq_getElem] at hd hsame
        simp [hd, hsame]
      · intro j hji
        simp only [Bool.and_eq_true, Bool.not_eq_true', beq_iff_eq, beq_eq_false_iff_ne, ne_eq,
          not_and]
        intro hjd
        have hji2 : j = i := by
          apply nodup_get_inj hdate (by simpa using (Nat.lt_trans hji hi)) (by simpa using hi)
          simp only [List.get_eq_getElem, List.getElem_map]
          rw [hjd]
          simp only [List.get_eq_getElem] at hd
          exact hd.symm
        omega
    rw [h1]
    dsimp only
    congr 1
    rw [List.getD_eq_getElem _ _ hi]
    rfl


/-- C9 (amended): in a store whose weight entries all carry truthy ids, with
pairwise-distinct ids and pairwise-distinct dates, `saveWeight` preserves
date-distinctness, and saving an entry whose date matches an existing entry's
date overwrites that entry in place, preserving the existing id. -/
theorem saveWeight_date_invariant (weight : WeightEntry) (now : ℕ) (store : Store)
    (hids : ∀ w ∈ store.weights, jsTruthyId w.id = true)
    (hid : (store.weights.map (fun w => w.id)).Nodup)
    (hdate : (store.weights.map (fun w => w.date)).Nodup) :
    ((saveWeight weight now store).weights.map (fun w => w.date)).Nodup ∧
    (∀ i (hi : i < store.weights.length),
      (store.weights.get ⟨i, hi⟩).date = weight.date →
      (saveWeight weight now store).weights =
        store.weights.set i { weight with id := (store.weights.get ⟨i, hi⟩).id }) :=
  ⟨saveWeight_distinctDates weight now store hids hid hdate,
   fun i hi hd => saveWeight_overwrites_in_place weight now store hids hid hdate i hi hd⟩

/-- A store whose single weight entry carries no id (dates trivially
pairwise-distinct). -/
def storeIdlessWeight : Store :=
  { getDefaultStore with weights := [{ id := none, date := 20460, weight := 70 }] }

/-- C9 counterexample: in a store with pairwise-distinct dates whose single
entry has no id, saving a second entry for the same date appends a fresh
entry instead of overwriting, leaving two entries with the same date. -/
theorem saveWeight_duplicate_date_counterexample :
    (storeIdlessWeight.weights.map (fun w => w.date)).Nodup ∧
    ¬ (((saveWeight { id := none, date := 20460, weight := 71 } 5 storeIdlessWeight).weights.map
        (fun w => w.date)).Nodup) ∧
    (saveWeight { id := none, date := 20460, weight := 71 } 5 storeIdlessWeight).weights =
      [{ id := none, date := 20460, weight := 70 },
       { id := some ("weight_5"), date := 20460, weight := 71 }] := by
  refine ⟨by decide, by decide, by decide⟩

/-- A well-formed store with one weight entry. -/
def storeOneWeight : Store :=
  { getDefaultStore with weights := [{ id := some ("weight_1"), date := 20460, weight := 70 }] }

/-- C9 witness: the amended theorem applied to a same-date save over a
well-formed one-entry store: the entry is overwritten in place, its id
kept. -/
theorem saveWeight_date_invariant_witness :
    (saveWeight { id := none, date := 20460, weight := 71 } 5 storeOneWeight).weights =
      [{ id := some ("weight_1"), date := 20460, weight := 71 }] := by
  have h := (saveWeight_date_invariant { id := none, date := 20460, weight := 71 } 5 storeOneWeight
      (by decide) (by decide) (by decide)).2 0 (by decide) (by decide)
  rw [h]
  decide


/-- The claim's backward streak: the greatest `k ≤ cw` such that every week
in the half-open interval `(cw − k, cw]` has a run. -/
def specBackStreak (weeks : List ℕ) (cw : ℕ) : ℕ :=
  Nat.findGreatest (fun k => ∀ j ∈ Finset.Ioc (cw - k) cw, j ∈ weeks) cw

/-- The claim's longest streak: the longest run of consecutive integers among
the distinct weeks — the maximum, over the weeks with runs, of the length of
the consecutive block ending at that week. -/
def specLongest (weeks : List ℕ) : ℕ :=
  (weeks.map (fun w => specBackStreak weeks w)).foldr max 0

theorem countBack_le (weeks : List ℕ) (cw : ℕ) : countBack weeks cw ≤ cw := by
  induction cw with
  | zero => simp [countBack]
  | succ i ih =>
    rw [countBack]
    split_ifs with h
    · omega
    · omega

theorem countBack_mem (weeks : List ℕ) (cw : ℕ) :
    ∀ j, cw - countBack weeks cw < j → j ≤ cw → j ∈ weeks := by
  induction cw with
  | zero => omega
  | succ i ih =>
    intro j hj1 hj2
    rw [countBack] at hj1
    split_ifs at hj1 with h
    · rcases Nat.lt_or_ge j (i + 1) with hji | hji
      · exact ih j (by omega) (by omega)
      · have : j = i + 1 := by omega
        subst this
        exact List.elem_iff.mp h
    · omega

theorem countBack_stop (weeks : List ℕ) (cw : ℕ)
    (h : countBack weeks cw < cw) : (cw - countBack weeks cw) ∉ weeks := by
  induction cw with
  | zero => omega
  | succ i ih =>
    rw [countBack] at h ⊢
    split_ifs at h ⊢ with hc
    · have hlt : countBack weeks i < i := by omega
      have := ih hlt
      have harith : i + 1 - (countBack weeks i + 1) = i - countBack weeks i := by omega
      rw [harith]
      exact this
    · intro hmem
      simp only [Nat.sub_zero] at hmem
      exact absurd (List.elem_iff.mpr hmem) (by simpa using hc)

theorem countBack_eq_spec (weeks : List ℕ) (cw : ℕ) :
    countBack weeks cw = specBackStreak weeks cw := by
  symm
  rw [specBackStreak, Nat.findGreatest_eq_iff]
  refine ⟨countBack_le weeks cw, ?_, ?_⟩
  · intro hne j hj
    simp only [Finset.mem_Ioc] at hj
    exact countBack_mem weeks cw j hj.1 hj.2
  · intro n hlt hle hP
    have hcw : countBack weeks cw < cw := by omega
    have hnm := countBack_stop weeks cw hcw
    apply hnm
    apply hP
    simp only [Finset.mem_Ioc]
    omega

theorem countBack_succ (weeks : List ℕ) (i : ℕ) :
    countBack weeks (i + 1) = if (i + 1) ∈ weeks then countBack weeks i + 1 else 0 := by
  rw [countBack]
  by_cases h : (i + 1) ∈ weeks
  · rw [if_pos (List.elem_iff.mpr h), if_pos h]
  · rw [if_neg (fun hc => h (List.elem_iff.mp hc)), if_neg h]

theorem countBack_zero_of_not_mem (weeks : List ℕ) (i : ℕ) (h : i ∉ weeks) :
    countBack weeks i = 0 := by
  cases i with
  | zero => rfl
  | succ j => rw [countBack_succ, if_neg h]

theorem countBack_one (weeks : List ℕ) (w : ℕ) (hw1 : 1 ≤ w) (hwS : w ∈ weeks)
    (hprev : (w - 1) ∉ weeks) : countBack weeks w = 1 := by
  rcases Nat.exists_eq_add_of_le hw1 with ⟨i, rfl⟩
  rw [Nat.add_comm] at *
  rw [countBack_succ, if_pos hwS, countBack_zero_of_not_mem _ _ (by simpa using hprev)]

theorem foldr_max_base (l : List ℕ) (b : ℕ) :
    l.foldr max b = max b (l.foldr max 0) := by
  induction l with
  | nil => simp
  | cons a t ih =>
    simp only [List.foldr_cons, ih]
    omega

theorem foldr_max_perm {l1 l2 : List ℕ} (h : l1.Perm l2) :
    l1.foldr max 0 = l2.foldr max 0 := by
  induction h with
  | nil => rfl
  | cons x _ ih => simp only [List.foldr_cons, ih]
  | swap x y l => simp only [List.foldr_cons]; omega
  | trans _ _ ih1 ih2 => exact ih1.trans ih2

theorem longestFold_go (S : List ℕ) (hS1 : ∀ x ∈ S, 1 ≤ x) :
    ∀ (suf : List ℕ) (L temp last : ℕ),
      (last = 0 → temp = 0 ∧ L = 0) →
      (last ≠ 0 → last ∈ S ∧ temp = countBack S last ∧ 1 ≤ L) →
      List.Pairwise (· < ·) (last :: suf) →
      (∀ x ∈ suf, x ∈ S) →
      (∀ x ∈ S, x ≤ last ∨ x ∈ suf) →
      (suf.foldl
        (fun st week =>
          if st.2.2 == 0 || week == st.2.2 + 1 then
            (max st.1 (st.2.1 + 1), st.2.1 + 1, week)
          else (st.1, 1, week)) (L, temp, last)).1
        = (suf.map (fun w => countBack S w)).foldr max L := by
  intro suf
  induction suf with
  | nil =>
    intro L temp last _ _ _ _ _
    rfl
  | cons w rest ih =>
    intro L temp last h0 h1 hpair hsuf hup
    have hwS : w ∈ S := hsuf w (List.mem_cons_self w rest)
    have hw1 : 1 ≤ w := hS1 w hwS
    have hpc := List.pairwise_cons.mp hpair
    have hlastw : last < w := hpc.1 w (List.mem_cons_self w rest)
    have hpair2 : List.Pairwise (· < ·) (w :: rest) := hpc.2
    have hrest_gt : ∀ x ∈ rest, w < x := (List.pairwise_cons.mp hpair2).1
    have hrest_S : ∀ x ∈ rest, x ∈ S := fun x hx => hsuf x (List.mem_cons_of_mem w hx)
    have hup2 : ∀ x ∈ S, x ≤ w ∨ x ∈ rest := by
      intro x hx
      rcases hup x hx with hx2 | hx2
      · exact Or.inl (le_trans hx2 (le_of_lt hlastw))
      · rcases List.mem_cons.mp hx2 with hx3 | hx3
        · exact Or.inl (le_of_eq hx3)
        · exact Or.inr hx3
    rw [List.foldl_cons, List.map_cons, List.foldr_cons]
    by_cases hlast0 : last = 0
    · obtain ⟨ht, hL⟩ := h0 hlast0
      subst ht hL hlast0
      have hcond : ((0 : ℕ) == 0 || w == 0 + 1) = true := by simp
      rw [if_pos hcond]
      have hcb : countBack S w = 1 := by
        apply countBack_one S w hw1 hwS
        intro hmem
        rcases hup (w - 1) hmem with hle | hr
        · have := hS1 (w - 1) hmem
          omega
        · rcases List.mem_cons.mp hr with he | hr2
          · omega
          · have := hrest_gt (w - 1) hr2
            omega
      have hres := ih (max 0 (0 + 1)) (0 + 1) w
        (by omega)
        (fun _ => ⟨hwS, by omega, by omega⟩)
        hpair2 hrest_S hup2
      rw [hres, foldr_max_base, foldr_max_base ((rest.map fun w => countBack S w)) 0]
      rw [hcb]
      omega
    · obtain ⟨hlS, htemp, hL⟩ := h1 hlast0
      by_cases hwl : w = last + 1
      · have hcond : (last == 0 || w == last + 1) = true := by
          simp [hwl]
        rw [if_pos hcond]
        have hcb : countBack S w = temp + 1 := by
          rw [hwl, countBack_succ, if_pos (hwl ▸ hwS), ← htemp]
        have hres := ih (max L (temp + 1)) (temp + 1) w
          (by omega)
          (fun _ => ⟨hwS, by omega, by omega⟩)
          hpair2 hrest_S hup2
        rw [hres, foldr_max_base, foldr_max_base ((rest.map fun w => countBack S w)) 0,
          foldr_max_base ((rest.map fun w => countBack S w)) L]
        rw [hcb]
        omega
      · have hcond : (last == 0 || w == last + 1) = false := by
          simp [hwl, hlast0]
        rw [if_neg (by simp [hcond])]
        have hcb : countBack S w = 1 := by
          apply countBack_one S w hw1 hwS
          intro hmem
          rcases hup (w - 1) hmem with hle | hr
          · omega
          · rcases List.mem_cons.mp hr with he | hr2
            · omega
            · have := hrest_gt (w - 1) hr2
              omega
        have hres := ih L 1 w
          (by omega)
          (fun _ => ⟨hwS, hcb.symm, hL⟩)
          hpair2 hrest_S hup2
        rw [hres, foldr_max_base, foldr_max_base ((rest.map fun w => countBack S w)) 0]
        rw [hcb]
        omega

theorem runWeeks_pos (runs : List Run) : ∀ x ∈ runWeeks runs, 1 ≤ x := by
  intro x hx
  rw [runWeeks, List.mem_dedup] at hx
  simp only [List.mem_map, List.mem_filter] at hx
  obtain ⟨r, ⟨_, hw⟩, hx⟩ := hx
  subst hx
  simp only [bne_iff_ne, ne_eq] at hw
  omega

theorem countBack_nil (cw : ℕ) : countBack [] cw = 0 := by
  induction cw with
  | zero => rfl
  | succ i ih =>
    rw [countBack]
    simp

theorem longestLoop_eq_specLongest (weeks : List ℕ)
    (hS1 : ∀ x ∈ weeks, 1 ≤ x) (hnd : weeks.Nodup) :
    longestLoop (weeks.insertionSort (fun a b => a ≤ b)) = specLongest weeks := by
  set sorted := weeks.insertionSort (fun a b => a ≤ b) with hsorted
  have hperm : sorted.Perm weeks := List.perm_insertionSort _ weeks
  have hmemiff : ∀ x, x ∈ sorted ↔ x ∈ weeks := fun x => hperm.mem_iff
  have hnd2 : sorted.Nodup := (hperm.nodup_iff).mpr hnd
  have hsortedle : List.Sorted (· ≤ ·) sorted := List.sorted_insertionSort _ weeks
  have hsortedlt : List.Sorted (· < ·) sorted := hsortedle.lt_of_le hnd2
  have hpair : List.Pairwise (· < ·) ((0 : ℕ) :: sorted) := by
    rw [List.pairwise_cons]
    exact ⟨fun x hx => hS1 x ((hmemiff x).mp hx), hsortedlt⟩
  have hgo := longestFold_go weeks hS1 sorted 0 0 0
    (fun _ => ⟨rfl, rfl⟩)
    (fun h => absurd rfl h)
    hpair
    (fun x hx => (hmemiff x).mp hx)
    (fun x hx => Or.inr ((hmemiff x).mpr hx))
  rw [longestLoop, hgo, foldr_max_perm (hperm.map (fun w => countBack weeks w))]
  rw [specLongest]
  congr 1
  apply List.map_congr_left
  intro x _
  exact countBack_eq_spec weeks x

/-- The reference run set with runs in weeks 1, 2, 3, 5 and 6. -/
def streakExampleRuns : List Run :=
  [{ id := some ("r1"), date := 20460, week := 1, distance := 5, time := 1500, pace := 300 },
   { id := some ("r2"), date := 20467, week := 2, distance := 5, time := 1500, pace := 300 },
   { id := some ("r3"), date := 20474, week := 3, distance := 5, time := 1500, pace := 300 },
   { id := some ("r4"), date := 20488, week := 5, distance := 5, time := 1500, pace := 300 },
   { id := some ("r5"), date := 20495, week := 6, distance := 5, time := 1500, pace := 300 }]

/-- C4: `getRunStreak` returns as current streak the number of consecutive
weeks with at least one run counting backward from the current week (stopping
at the first empty week or at week 1), and as longest streak the larger of
the longest run of consecutive integers among the distinct weeks with runs
and the current streak; in particular runs in weeks {1,2,3,5,6} with current
week 6 give current = 2 and longest = 3. -/
theorem getRunStreak_spec (runs : List Run) (currentWeek : ℕ) :
    getRunStreak runs currentWeek =
      (specBackStreak (runWeeks runs) currentWeek,
        max (specLongest (runWeeks runs)) (specBackStreak (runWeeks runs) currentWeek)) ∧
    getRunStreak streakExampleRuns 6 = (2, 3) := by
  refine ⟨?_, by decide⟩
  cases runs with
  | nil =>
    have h0 : getRunStreak ([] : List Run) currentWeek = (0, 0) := rfl
    have hw : runWeeks ([] : List Run) = [] := rfl
    rw [h0, hw, ← countBack_eq_spec, countBack_nil]
    rfl
  | cons r rs =>
    rw [getRunStreak]
    rw [if_neg (by simp)]
    dsimp only
    rw [longestLoop_eq_specLongest (runWeeks (r :: rs)) (runWeeks_pos _) (List.nodup_dedup _),
      countBack_eq_spec]

end RunningDashboard
